/-
  Verification of the libbitcoin-node block-download scheduler core.

  Shallow embedding of:
  - src/reservations.cpp        (reservation table: initialize, populate,
                                 reserve, partition, find_maximal, remove, rates)
  - src/protocols/protocol_block_in.cpp
                                 (per-peer download protocol: send_get_blocks,
                                 handle_receive_block, handle_event)

  Machine integers (size_t) are modelled as Nat with explicit wrap-around
  where the source can overflow; doubles are modelled as exact rationals;
  error codes as a small inductive type.
-/
import Mathlib

namespace BitcoinNode

/-- A block hash, modelled as a natural number (32-byte identifier). -/
abbrev Hash := Nat

/-- A HashQueue element: (hash, height) pair. -/
abbrev HashEntry := Hash × Nat

/-- The protocol maximum size of get data block requests
(`max_block_request = 50000` in reservations.cpp). -/
def max_request : Nat := 50000

/-- `max_size_t`: the largest value of the C++ type size_t (64-bit). -/
def max_size_t : Nat := 2 ^ 64 - 1

/-- size_t subtraction, wrapping modulo 2^64 as in C++. -/
def sub_size_t (a b : Nat) : Nat := (a + (max_size_t + 1) - b) % (max_size_t + 1)

/-- One reservation slot: its id, pending (hash, height) entries in
insertion order, and the stopped flag. -/
structure Reservation where
  slot : Nat
  pending : List HashEntry
  stopped : Bool
deriving DecidableEq

instance : Inhabited Reservation := ⟨⟨0, [], false⟩⟩

/-- `reservation::insert(hash, height)`: append an entry to pending. -/
def insertEntry (r : Reservation) (e : HashEntry) : Reservation :=
  { r with pending := r.pending ++ [e] }

/-- The reservation table plus the shared HashQueue (front of list = head). -/
structure Reservations where
  table : List Reservation
  hashes : List HashEntry
deriving DecidableEq

/-- One `hashes_.dequeue(hash, height); table_[row]->insert(hash, height);`
step: move the queue head into slot `row`.  The source loops guarantee the
queue is non-empty at every dequeue; on an empty queue this is a no-op. -/
def dequeueInto (st : Reservations) (row : Nat) : Reservations :=
  match st.hashes with
  | [] => st
  | e :: rest =>
      { table := st.table.set row (insertEntry (st.table.getD row default) e),
        hashes := rest }

/-- The inner distribution loop of `reservations::initialize`:
`n` remaining iterations, current row index `row`
(`for (row = 0; row < rows; ++row) { dequeue into slot row }`). -/
def initRowsCount (st : Reservations) (row : Nat) : Nat → Reservations
  | 0 => st
  | n + 1 => initRowsCount (dequeueInto st row) (row + 1) n

/-- One full pass of the inner loop over rows `0 .. rows-1`. -/
def initRows (st : Reservations) (rows : Nat) : Reservations :=
  initRowsCount st 0 rows

/-- The outer distribution loop of `reservations::initialize`
(`for (base = 0; base < allocation / rows; ++base)`), with the number of
remaining base iterations as the recursion measure. -/
def initBases (st : Reservations) (rows : Nat) : Nat → Reservations
  | 0 => st
  | b + 1 => initBases (initRows st rows) rows b

/-- `reservations::initialize(size)` (reservations.cpp:140-192): cap the row
count by `max_size_t / max_request` and by the queue size, return untouched
when zero, append that many fresh slots, and distribute
`(allocation / rows) * rows` queue entries round-robin, where
`allocation = min(blocks, rows * max_request)`. -/
def reservations.initialize (size : Nat) (st : Reservations) : Reservations :=
  let max_rows := max_size_t / max_request
  let rows₀ := min max_rows size
  let blocks := st.hashes.length
  let rows := min rows₀ blocks
  if rows = 0 then st
  else
    let max_allocation := rows * max_request
    let allocation := min blocks max_allocation
    let fresh : List Reservation :=
      (List.range rows).map (fun row => ⟨row, [], false⟩)
    let st' : Reservations := { table := st.table ++ fresh, hashes := st.hashes }
    initBases st' rows (allocation / rows)

/-- The entries slot `j` receives from queue `q` under round-robin
distribution over `rows` slots for `bases` rounds: `q[j], q[rows+j], ...`. -/
def roundRobin (q : List HashEntry) (rows bases j : Nat) : List HashEntry :=
  (List.range bases).map (fun b => q.getD (b * rows + j) default)

/-- Sum of all slot sizes of a table state. -/
def sumSizes (st : Reservations) : Nat :=
  (st.table.map (fun r => r.pending.length)).sum

/-- The dequeue loop of `reservations::reserve`: `n` iterations of
`hashes_.dequeue(hash, height); minimal->insert(hash, height);`,
where `minimal` is the slot at table index `i`. -/
def reserveLoop (st : Reservations) (i : Nat) : Nat → Reservations
  | 0 => st
  | n + 1 => reserveLoop (dequeueInto st i) i n

/-- `reservations::reserve(minimal)` (reservations.cpp:237-254): drain
`min(hashes_.size(), max_request_ - minimal->size())` queue entries into the
slot at index `i` (size_t subtraction wraps), then return
`!minimal->empty()`.  The slot is addressed by its table index, standing for
the C++ `reservation::ptr` object identity. -/
def reservations.reserve (st : Reservations) (i : Nat) : Reservations × Bool :=
  let size := st.hashes.length
  let existing := (st.table.getD i default).pending.length
  let allocation := min size (sub_size_t max_request existing)
  let st' := reserveLoop st i allocation
  (st', !(st'.table.getD i default).pending.isEmpty)

/-- Modelled from the spec: `reservation::partition(minimal)`
(reservation.cpp, which is absent from src/).  Per §4.C the donor
atomically moves its trailing half of `pending` to the recipient — keeping
the half rounded up, so that per the §8 boundary rule a singleton donor
transfers nothing and returns false — sets its own `stopped` flag, and
returns whether the transfer moved at least one hash.
Result: (new donor, new recipient, return value). -/
def reservation.partitionInto (maximal minimal : Reservation) :
    Reservation × Reservation × Bool :=
  let keep := (maximal.pending.length + 1) / 2
  let moved := maximal.pending.drop keep
  (⟨maximal.slot, maximal.pending.take keep, true⟩,
   { minimal with pending := minimal.pending ++ moved },
   !moved.isEmpty)

/-- `reservations::find_maximal()` (reservations.cpp:223-235): index of the
row returned by `std::max_element` over slot sizes — the first row whose
size is not exceeded by any later row — or none on an empty table.
Recursively: the head wins unless the tail's first-maximal row is strictly
larger. -/
def maxElemIdx : List Reservation → Option Nat
  | [] => none
  | r :: rs =>
      match maxElemIdx rs with
      | none => some 0
      | some j =>
          if r.pending.length < (rs.getD j default).pending.length then some (j + 1)
          else some 0

/-- `reservations::find_maximal()` on a table state. -/
def reservations.find_maximal (st : Reservations) : Option Nat :=
  maxElemIdx st.table

/-- `reservations::partition(minimal)` (reservations.cpp:217-221):
`maximal && maximal != minimal && maximal->partition(minimal)`.
Returns (new state, return value, index of the donor when the slot-level
`partition` call was actually made). -/
def reservations.partition (st : Reservations) (i : Nat) :
    Reservations × Bool × Option Nat :=
  match reservations.find_maximal st with
  | none => (st, false, none)
  | some j =>
      if j = i then (st, false, none)
      else
        let maximal := st.table.getD j default
        let minimal := st.table.getD i default
        let p := reservation.partitionInto maximal minimal
        ({ table := (st.table.set j p.1).set i p.2.1, hashes := st.hashes },
         p.2.2, some j)

/-- `reservations::populate(minimal)` (reservations.cpp:194-214):
`populated = reserve(minimal) || partition(minimal)` with C++ short-circuit.
Returns (new state, populated, whether partition was attempted). -/
def reservations.populate (st : Reservations) (i : Nat) :
    Reservations × Bool × Bool :=
  let r := reservations.reserve st i
  if r.2 then (r.1, true, false)
  else
    let p := reservations.partition r.1 i
    (p.1, p.2.1, true)

/-- `reservations::remove(row)` (reservations.cpp:113-135): find the row in
the table; if absent return unchanged, otherwise erase that occurrence. -/
def reservations.remove (st : Reservations) (row : Reservation) : Reservations :=
  if row ∈ st.table then { st with table := st.table.erase row } else st

-- Rate statistics (reservations::rates).
--------------------------------------------------------------------------------

/-- The per-row data `reservations::rates` reads: `row->idle()` and
`row->rate().normal()` (both computed in reservation.cpp, absent from
src/, so taken here as abstract row attributes; doubles are modelled as
exact rationals). -/
structure RateRow where
  idle : Bool
  normal : ℚ
deriving DecidableEq

/-- Modelled from the spec: `reservation::divide` (reservation.hpp, absent
from src/) — the guarded division helper, "returns 0 when denominator is 0
(never panics)". -/
def divide (n : ℚ) (d : Nat) : ℚ := if d = 0 then 0 else n / d

/-- `reservations::rates()` (reservations.cpp:62-98): drop idle rows, take
the `normal()` rates of the remainder, and return
(active_rows, mean, quotient) where `mean = divide(total, active_rows)` and
`quotient = divide(sum of squared deviations, active_rows)`; the source's
standard deviation is the square root of the returned quotient. -/
def reservations.rates (rows : List RateRow) : Nat × ℚ × ℚ :=
  let active := rows.filter (fun r => !r.idle)
  let active_rows := active.length
  let rates := active.map (fun r => r.normal)
  let total := rates.sum
  let mean := divide total active_rows
  let squares := rates.foldl (fun acc rate => acc + (mean - rate) * (mean - rate)) 0
  let quotient := divide squares active_rows
  (active_rows, mean, quotient)

-- Protocol model (protocol_block_in.cpp).
--------------------------------------------------------------------------------

/-- Error codes as seen by protocol_block_in; `success` is the zero code. -/
inductive Code where
  | success
  | channel_stopped
  | channel_timeout
  | other (n : Nat)
deriving DecidableEq

/-- An inventory vector: (type id, hash).  Per the wire-format interface,
bit 0x40000000 on a block type denotes the witness variant. -/
structure InvVector where
  type_id : Nat
  inv_hash : Hash
deriving DecidableEq

/-- The witness type bit (0x40000000). -/
def witness_bit : Nat := 0x40000000

/-- `inventory::to_witness` on one entry: set the witness bit on the type. -/
def InvVector.to_witness (v : InvVector) : InvVector :=
  { v with type_id := v.type_id ||| witness_bit }

/-- `protocol_block_in::send_get_blocks()` (protocol_block_in.cpp:85-111):
given the protocol stop state, the chain's `is_candidates_stale()`, the
witness requirement and the reservation's request inventory, return the
message sent (none when no send happens). -/
def send_get_blocks (stopped stale require_witness : Bool)
    (request : List InvVector) : Option (List InvVector) :=
  if stopped then none
  else if stale then none
  else if request.isEmpty then none
  else if require_witness then some (request.map InvVector.to_witness)
  else some request

/-- Inputs of one `protocol_block_in::handle_receive_block` invocation:
the protocol stop state, the incoming error code, the witness flags, the
reservation's stop state, the result of `find_height_and_erase` on the
block's hash, the code `chain_.organize` would return, and the chain's
`is_blocks_stale()`. -/
structure ReceiveInput where
  protocol_stopped : Bool
  ec : Code
  require_witness : Bool
  peer_witness : Bool
  reservation_stopped : Bool
  find_result : Option Nat
  organize_result : Code
  blocks_stale : Bool
deriving DecidableEq

/-- Observable effects of one `handle_receive_block` invocation. -/
structure ReceiveEffects where
  stop_code : Option Code
  organize_called : Bool
  update_history_called : Bool
  report_called : Bool
  send_called : Bool
  keep_subscribed : Bool
deriving DecidableEq

/-- `protocol_block_in::handle_receive_block` (protocol_block_in.cpp:113-192),
with `stopped(ec)` — the network library's stop predicate — modelled as the
protocol stop state. -/
def handle_receive_block (inp : ReceiveInput) : ReceiveEffects :=
  if inp.protocol_stopped then ⟨none, false, false, false, false, false⟩
  else if inp.ec ≠ Code.success then ⟨some inp.ec, false, false, false, false, false⟩
  else if inp.require_witness && !inp.peer_witness then
    ⟨some Code.channel_stopped, false, false, false, false, false⟩
  else if inp.reservation_stopped then
    ⟨some Code.channel_stopped, false, false, false, false, false⟩
  else
    match inp.find_result with
    | none => ⟨some Code.channel_stopped, false, false, false, false, false⟩
    | some height =>
        if inp.organize_result ≠ Code.success then
          ⟨some inp.organize_result, true, false, false, false, false⟩
        else
          let period : Nat := if inp.blocks_stale then 100 else 1
          ⟨none, true, true, height % period == 0, true, true⟩

/-- Inputs of one `protocol_block_in::handle_event` invocation. -/
structure EventInput where
  protocol_stopped : Bool
  ec : Code
  expired : Bool
deriving DecidableEq

/-- Observable effects of one `handle_event` invocation. -/
structure EventEffects where
  reservation_stop_called : Bool
  unsubscribe_called : Bool
  stop_code : Option Code
deriving DecidableEq

/-- `protocol_block_in::handle_event` (protocol_block_in.cpp:271-301), with
`stopped(ec)` modelled as the protocol stop state. -/
def handle_event (inp : EventInput) : EventEffects :=
  if inp.protocol_stopped then ⟨true, true, none⟩
  else if inp.ec ≠ Code.success ∧ inp.ec ≠ Code.channel_timeout then
    ⟨false, false, some inp.ec⟩
  else if inp.expired then ⟨false, false, some inp.ec⟩
  else ⟨false, false, none⟩

-- Concrete sample inputs used by witnesses and counterexamples.
--------------------------------------------------------------------------------

/-- A five-entry sample queue. -/
def sampleQueue : List HashEntry := [(10, 1), (11, 2), (12, 3), (13, 4), (14, 5)]

/-- A queue of 50001 entries (one more than max_request). -/
def cexQueue : List HashEntry := (List.range 50001).map (fun i => (i, i))

/-- A table of two slots, the first holding one hash. -/
def singletonState : Reservations :=
  { table := [⟨0, [(7, 7)], false⟩, ⟨1, [], false⟩], hashes := [] }

-- Helper lemmas: the round-robin distribution loops of initialize.
--------------------------------------------------------------------------------

lemma dequeueInto_cons (st : Reservations) (row : Nat) (e : HashEntry)
    (rest : List HashEntry) (h : st.hashes = e :: rest) :
    dequeueInto st row =
      { table := st.table.set row (insertEntry (st.table.getD row default) e),
        hashes := rest } := by
  unfold dequeueInto
  rw [h]

lemma initRowsCount_spec (n : Nat) :
    ∀ (st : Reservations) (row : Nat),
      row + n ≤ st.table.length → n ≤ st.hashes.length →
      (initRowsCount st row n).hashes = st.hashes.drop n ∧
      (initRowsCount st row n).table.length = st.table.length ∧
      (∀ j, (j < row ∨ row + n ≤ j) →
        (initRowsCount st row n).table[j]? = st.table[j]?) ∧
      (∀ j, row ≤ j → j < row + n →
        (initRowsCount st row n).table[j]? =
          (st.table[j]?).map
            (fun r => insertEntry r (st.hashes.getD (j - row) default))) := by
  induction n with
  | zero =>
      intro st row _ _
      refine ⟨by simp [initRowsCount], rfl, fun j _ => rfl, fun j h1 h2 => ?_⟩
      omega
  | succ n ih =>
      intro st row htab hq
      obtain ⟨e, rest, he⟩ : ∃ e rest, st.hashes = e :: rest := by
        cases hh : st.hashes with
        | nil => rw [hh] at hq; simp at hq
        | cons e rest => exact ⟨e, rest, rfl⟩
      have hrowlt : row < st.table.length := by omega
      set st₁ : Reservations :=
        { table := st.table.set row (insertEntry (st.table.getD row default) e),
          hashes := rest } with hst₁
      have hstep : initRowsCount st row (n + 1) = initRowsCount st₁ (row + 1) n := by
        rw [initRowsCount, dequeueInto_cons st row e rest he]
      have htab₁ : (row + 1) + n ≤ st₁.table.length := by
        simp [hst₁, List.length_set]; omega
      have hq₁ : n ≤ st₁.hashes.length := by
        have : st.hashes.length = rest.length + 1 := by rw [he]; simp
        simp [hst₁]; omega
      obtain ⟨iha, ihb, ihc, ihd⟩ := ih st₁ (row + 1) htab₁ hq₁
      refine ⟨?_, ?_, ?_, ?_⟩
      · rw [hstep, iha, hst₁, he]
        simp [List.drop_succ_cons]
      · rw [hstep, ihb, hst₁]
        simp [List.length_set]
      · intro j hj
        have hj' : j < row + 1 ∨ (row + 1) + n ≤ j := by omega
        rw [hstep, ihc j hj']
        have hne : row ≠ j := by omega
        simp [hst₁, List.getElem?_set_ne hne]
      · intro j h1 h2
        rcases Nat.eq_or_lt_of_le h1 with heq | hlt
        · subst heq
          have hjlt : row < row + 1 := by omega
          rw [hstep, ihc row (Or.inl hjlt)]
          have hset : st₁.table[row]? =
              some (insertEntry (st.table.getD row default) e) := by
            simp only [hst₁]
            exact List.getElem?_set_self hrowlt
          rw [hset]
          have hget : st.table[row]? = some (st.table.getD row default) := by
            rw [List.getD_eq_getElem?_getD]
            cases hx : st.table[row]? with
            | none => rw [List.getElem?_eq_none_iff] at hx; omega
            | some v => simp
          rw [hget, he]
          simp
        · have h1' : row + 1 ≤ j := hlt
          rw [hstep, ihd j h1' (by omega)]
          have hne : row ≠ j := by omega
          have hgetd : st₁.hashes.getD (j - (row + 1)) default
              = st.hashes.getD (j - row) default := by
            rw [hst₁, he]
            have : j - row = (j - (row + 1)) + 1 := by omega
            rw [this]
            simp
          rw [hgetd]
          simp [hst₁, List.getElem?_set_ne hne]

lemma initRows_spec (st : Reservations) (rows : Nat)
    (htab : rows ≤ st.table.length) (hq : rows ≤ st.hashes.length) :
    (initRows st rows).hashes = st.hashes.drop rows ∧
    (initRows st rows).table.length = st.table.length ∧
    (∀ j, rows ≤ j → (initRows st rows).table[j]? = st.table[j]?) ∧
    (∀ j, j < rows →
      (initRows st rows).table[j]? =
        (st.table[j]?).map (fun r => insertEntry r (st.hashes.getD j default))) := by
  obtain ⟨a, b, c, d⟩ := initRowsCount_spec rows st 0 (by omega) hq
  refine ⟨a, b, fun j hj => c j (Or.inr (by omega)), fun j hj => ?_⟩
  have := d j (by omega) (by omega)
  simpa using this

lemma roundRobin_zero (q : List HashEntry) (rows j : Nat) :
    roundRobin q rows 0 j = [] := by
  simp [roundRobin]

lemma getD_drop (q : List HashEntry) (n i : Nat) :
    (q.drop n).getD i default = q.getD (n + i) default := by
  rw [List.getD_eq_getElem?_getD, List.getD_eq_getElem?_getD, List.getElem?_drop]

lemma roundRobin_succ (q : List HashEntry) (rows b j : Nat) :
    roundRobin q rows (b + 1) j =
      q.getD j default :: roundRobin (q.drop rows) rows b j := by
  unfold roundRobin
  rw [List.range_succ_eq_map]
  simp only [List.map_cons, List.map_map, Nat.zero_mul, Nat.zero_add]
  congr 1
  apply List.map_congr_left
  intro x _
  simp only [Function.comp_apply]
  rw [getD_drop]
  congr 1
  simp only [Nat.succ_eq_add_one]
  ring

lemma roundRobin_length (q : List HashEntry) (rows bases j : Nat) :
    (roundRobin q rows bases j).length = bases := by
  simp [roundRobin]

lemma initBases_spec (bases : Nat) :
    ∀ (st : Reservations) (rows : Nat),
      rows ≤ st.table.length → bases * rows ≤ st.hashes.length →
      (initBases st rows bases).hashes = st.hashes.drop (bases * rows) ∧
      (initBases st rows bases).table.length = st.table.length ∧
      (∀ j, rows ≤ j → (initBases st rows bases).table[j]? = st.table[j]?) ∧
      (∀ j, j < rows →
        (initBases st rows bases).table[j]? =
          (st.table[j]?).map
            (fun r =>
              { r with pending := r.pending ++ roundRobin st.hashes rows bases j })) := by
  induction bases with
  | zero =>
      intro st rows _ _
      refine ⟨by simp [initBases], rfl, fun j _ => rfl, fun j hj => ?_⟩
      show st.table[j]? = _
      rw [roundRobin_zero]
      cases st.table[j]? with
      | none => rfl
      | some v => simp
  | succ b ih =>
      intro st rows h1 h2
      have hmul : (b + 1) * rows = b * rows + rows := by ring
      rw [hmul] at h2
      have hrows_le : rows ≤ st.hashes.length := by omega
      obtain ⟨ra, rb, rc, rd⟩ := initRows_spec st rows h1 hrows_le
      have hstep : initBases st rows (b + 1) = initBases (initRows st rows) rows b := rfl
      have h1' : rows ≤ (initRows st rows).table.length := by rw [rb]; exact h1
      have h2' : b * rows ≤ (initRows st rows).hashes.length := by
        rw [ra, List.length_drop]; omega
      obtain ⟨iha, ihb, ihc, ihd⟩ := ih (initRows st rows) rows h1' h2'
      refine ⟨?_, ?_, ?_, ?_⟩
      · rw [hstep, iha, ra, List.drop_drop, hmul, Nat.add_comm]
      · rw [hstep, ihb, rb]
      · intro j hj
        rw [hstep, ihc j hj, rc j hj]
      · intro j hj
        rw [hstep, ihd j hj, rd j hj, Option.map_map, ra]
        cases st.table[j]? with
        | none => rfl
        | some v =>
            show some _ = some _
            congr 1
            rw [roundRobin_succ]
            simp [insertEntry, Function.comp]

lemma initBases_fresh (q : List HashEntry) (rows bases : Nat)
    (hq : bases * rows ≤ q.length) :
    initBases
      { table := (List.range rows).map (fun j => (⟨j, [], false⟩ : Reservation)),
        hashes := q } rows bases =
      { table := (List.range rows).map
          (fun j => (⟨j, roundRobin q rows bases j, false⟩ : Reservation)),
        hashes := q.drop (bases * rows) } := by
  set st' : Reservations :=
    { table := (List.range rows).map (fun j => (⟨j, [], false⟩ : Reservation)),
      hashes := q } with hst'
  have hlen : st'.table.length = rows := by simp [hst']
  obtain ⟨a, b, c, d⟩ := initBases_spec bases st' rows (by omega) hq
  have htab : (initBases st' rows bases).table =
      (List.range rows).map
        (fun j => (⟨j, roundRobin q rows bases j, false⟩ : Reservation)) := by
    apply List.ext_getElem?
    intro i
    by_cases hi : i < rows
    · rw [d i hi]
      have hsrc : st'.table[i]? = some ⟨i, [], false⟩ := by
        simp [hst', List.getElem?_map, List.getElem?_range hi]
      rw [hsrc]
      simp [hst', List.getElem?_map, List.getElem?_range hi]
    · have hge : rows ≤ i := by omega
      rw [c i hge]
      have h1 : st'.table[i]? = none := by
        rw [List.getElem?_eq_none_iff]; omega
      have h2 : ((List.range rows).map
          (fun j => (⟨j, roundRobin q rows bases j, false⟩ : Reservation)))[i]? = none := by
        rw [List.getElem?_eq_none_iff]; simp; omega
      rw [h1, h2]
  calc initBases st' rows bases
      = ⟨(initBases st' rows bases).table, (initBases st' rows bases).hashes⟩ := rfl
    _ = _ := by rw [htab, a]

/-- The branch structure of `reservations::initialize`, on a fresh table:
with `rows = min(min(max_size_t / max_request, size), |q|)` zero the state is
untouched; otherwise `rows` slots are created and
`(min(|q|, rows * max_request) / rows)` full rounds are distributed. -/
lemma initialize_spec (K rows bases : Nat) (q : List HashEntry)
    (hrows : rows = min (min (max_size_t / max_request) K) q.length)
    (hne : rows ≠ 0)
    (hbases : bases = min q.length (rows * max_request) / rows) :
    reservations.initialize K { table := [], hashes := q } =
      { table := (List.range rows).map
          (fun j => (⟨j, roundRobin q rows bases j, false⟩ : Reservation)),
        hashes := q.drop (bases * rows) } := by
  have hle : bases * rows ≤ q.length := by
    have h1 : bases * rows ≤ min q.length (rows * max_request) := by
      rw [hbases]; exact Nat.div_mul_le_self _ _
    omega
  unfold reservations.initialize
  simp only []
  rw [if_neg (hrows ▸ hne)]
  rw [← hrows, ← hbases]
  exact initBases_fresh q rows bases hle

lemma initialize_zero (K : Nat) (st : Reservations)
    (h : min (min (max_size_t / max_request) K) st.hashes.length = 0) :
    reservations.initialize K st = st := by
  unfold reservations.initialize
  rw [if_pos h]

-- C1: reservations::initialize slot creation and round-robin distribution.
--------------------------------------------------------------------------------

/-- C1 (amended): `reservations::initialize(K)` on a fresh table over a queue
of M entries creates exactly K' = min(K, max_size_t / max_request, M) slots —
when K' = 0 no slots are created and the queue is untouched — and distributes
the first `(min(M, K' * max_request) / K') * K'` queue entries round-robin,
the i-th dequeued entry going to slot `i mod K'`; the remainder stays queued
and the sum of all slot sizes plus the remaining queue size equals M. -/
theorem C1_initialize_round_robin (K : Nat) (q : List HashEntry) :
    (min (min (max_size_t / max_request) K) q.length = 0 →
      reservations.initialize K { table := [], hashes := q } =
        { table := [], hashes := q }) ∧
    (∀ rows bases : Nat,
      rows = min (min (max_size_t / max_request) K) q.length →
      rows ≠ 0 →
      bases = min q.length (rows * max_request) / rows →
      ( reservations.initialize K { table := [], hashes := q }).table.length = rows ∧
      (∀ j, j < rows →
        ( reservations.initialize K { table := [], hashes := q }).table[j]? =
          some ⟨j, roundRobin q rows bases j, false⟩) ∧
      (∀ i, i < bases * rows →
        q.getD i default ∈
          (( reservations.initialize K { table := [], hashes := q }).table.getD
            (i % rows) default).pending) ∧
      ( reservations.initialize K { table := [], hashes := q }).hashes =
        q.drop (bases * rows) ∧
      sumSizes ( reservations.initialize K { table := [], hashes := q }) +
        ( reservations.initialize K { table := [], hashes := q }).hashes.length =
        q.length) := by
  constructor
  · intro h
    exact initialize_zero K _ h
  · intro rows bases hrows hne hbases
    have hle : bases * rows ≤ q.length := by
      have h1 : bases * rows ≤ min q.length (rows * max_request) := by
        rw [hbases]; exact Nat.div_mul_le_self _ _
      omega
    have hmain := initialize_spec K rows bases q hrows hne hbases
    rw [hmain]
    have hrpos : 0 < rows := Nat.pos_of_ne_zero hne
    refine ⟨by simp, ?_, ?_, rfl, ?_⟩
    · intro j hj
      simp [List.getElem?_map, List.getElem?_range hj]
    · intro i hi
      have hmod : i % rows < rows := Nat.mod_lt _ hrpos
      have hgetd :
          (((List.range rows).map
            (fun j => (⟨j, roundRobin q rows bases j, false⟩ : Reservation))).getD
              (i % rows) default) =
            ⟨i % rows, roundRobin q rows bases (i % rows), false⟩ := by
        rw [List.getD_eq_getElem?_getD]
        simp [List.getElem?_map, List.getElem?_range hmod]
      rw [hgetd]
      show q.getD i default ∈ roundRobin q rows bases (i % rows)
      unfold roundRobin
      have hdiv : i / rows < bases := by
        rw [Nat.div_lt_iff_lt_mul hrpos]
        omega
      have harith : (i / rows) * rows + i % rows = i := by
        rw [Nat.mul_comm]
        exact Nat.div_add_mod i rows
      refine List.mem_map.mpr ⟨i / rows, List.mem_range.mpr hdiv, ?_⟩
      rw [harith]
    · have hsum : sumSizes
          { table := (List.range rows).map
              (fun j => (⟨j, roundRobin q rows bases j, false⟩ : Reservation)),
            hashes := q.drop (bases * rows) } = rows * bases := by
        unfold sumSizes
        rw [List.map_map]
        have hfun : ((fun r => r.pending.length) ∘ fun j =>
            (⟨j, roundRobin q rows bases j, false⟩ : Reservation)) =
            fun j : Nat => bases := by
          funext j
          simp [Function.comp, roundRobin_length]
        rw [hfun, List.map_const', List.sum_replicate, List.length_range,
          smul_eq_mul]
      rw [hsum]
      simp only [List.length_drop]
      have hcomm : rows * bases = bases * rows := Nat.mul_comm _ _
      omega

/-- C1 witness: the theorem applied at K = 2 and a five-entry queue. -/
theorem C1_witness :
    ( reservations.initialize 2 { table := [], hashes := sampleQueue }).table.length
        = 2 ∧
      ( reservations.initialize 2 { table := [], hashes := sampleQueue }).hashes =
        sampleQueue.drop (2 * 2) := by
  have h := (C1_initialize_round_robin 2 sampleQueue).2 2 2 (by decide) (by decide)
    (by decide)
  exact ⟨h.1, h.2.2.2.1⟩

/-- C1 counterexample: with K = 1 and M = 50001 the code leaves one entry in
the queue, while the claim's round count `(M / K') * K' = 50001` would leave
none: the claimed distribution total ignores the `K' * max_request`
allocation cap. -/
theorem C1_counterexample :
    ( reservations.initialize 1 { table := [], hashes := cexQueue }).hashes.length ≠
      cexQueue.length -
        (cexQueue.length / min (min (max_size_t / max_request) 1) cexQueue.length) *
          min (min (max_size_t / max_request) 1) cexQueue.length := by
  have hlen : cexQueue.length = 50001 := by simp [cexQueue]
  have hrows : (1 : Nat) = min (min (max_size_t / max_request) 1) cexQueue.length := by
    rw [hlen]; decide
  have hbases : (50000 : Nat) = min cexQueue.length (1 * max_request) / 1 := by
    rw [hlen]; decide
  have h := initialize_spec 1 1 50000 cexQueue hrows (by decide) hbases
  rw [h, ← hrows, hlen]
  simp [hlen]

-- C10: reservations::remove frame condition.
--------------------------------------------------------------------------------

/-- C10: `reservations::remove(row)` with a row that is not in the table
returns without modifying the state; with a present row exactly that row
(its first occurrence) is erased and every other row, their order, and the
queue are unchanged. -/
theorem C10_remove_frame (st : Reservations) (row : Reservation) :
    (row ∉ st.table → reservations.remove st row = st) ∧
    (row ∈ st.table → ∃ l₁ l₂,
      st.table = l₁ ++ row :: l₂ ∧ row ∉ l₁ ∧
      (reservations.remove st row).table = l₁ ++ l₂ ∧
      (reservations.remove st row).hashes = st.hashes) := by
  constructor
  · intro h
    unfold reservations.remove
    rw [if_neg h]
  · intro h
    obtain ⟨l₁, l₂, hnm, heq, herase⟩ := List.exists_erase_eq h
    refine ⟨l₁, l₂, heq, hnm, ?_, ?_⟩
    · unfold reservations.remove
      rw [if_pos h]
      exact herase
    · unfold reservations.remove
      rw [if_pos h]

/-- C10 witness: removal of the first slot of the two-slot sample table. -/
theorem C10_witness :
    ∃ l₁ l₂,
      singletonState.table = l₁ ++ (⟨0, [(7, 7)], false⟩ : Reservation) :: l₂ ∧
      (⟨0, [(7, 7)], false⟩ : Reservation) ∉ l₁ ∧
      (reservations.remove singletonState ⟨0, [(7, 7)], false⟩).table = l₁ ++ l₂ ∧
      (reservations.remove singletonState ⟨0, [(7, 7)], false⟩).hashes =
        singletonState.hashes :=
  (C10_remove_frame singletonState ⟨0, [(7, 7)], false⟩).2 (by decide)

-- C3: find_maximal / table-level partition.
--------------------------------------------------------------------------------

lemma maxElemIdx_eq_none (t : List Reservation) : maxElemIdx t = none ↔ t = [] := by
  cases t with
  | nil => simp [maxElemIdx]
  | cons r rs =>
      unfold maxElemIdx
      cases maxElemIdx rs with
      | none => simp
      | some j =>
          simp only []
          split <;> simp

lemma maxElemIdx_spec (t : List Reservation) :
    ∀ j, maxElemIdx t = some j →
      j < t.length ∧
      (∀ k, k < t.length →
        (t.getD k default).pending.length ≤ (t.getD j default).pending.length) ∧
      (∀ k, k < j →
        (t.getD k default).pending.length < (t.getD j default).pending.length) := by
  induction t with
  | nil => intro j h; simp [maxElemIdx] at h
  | cons r rs ih =>
      intro j h
      unfold maxElemIdx at h
      cases hm : maxElemIdx rs with
      | none =>
          rw [hm] at h
          simp only [Option.some.injEq] at h
          subst h
          have hnil : rs = [] := (maxElemIdx_eq_none rs).mp hm
          subst hnil
          refine ⟨by simp, ?_, ?_⟩
          · intro k hk
            have hk0 : k = 0 := by simpa using hk
            subst hk0
            simp
          · intro k hk
            omega
      | some j' =>
          rw [hm] at h
          have h2 : (if r.pending.length < (rs.getD j' default).pending.length
              then some (j' + 1) else some 0) = some j := h
          obtain ⟨hj'len, hall, hfirst⟩ := ih j' hm
          by_cases hcmp :
              r.pending.length < (rs.getD j' default).pending.length
          · rw [if_pos hcmp] at h2
            simp only [Option.some.injEq] at h2
            subst h2
            refine ⟨by simp; omega, ?_, ?_⟩
            · intro k hk
              cases k with
              | zero => simpa using Nat.le_of_lt hcmp
              | succ k' =>
                  simp only [List.getD_cons_succ]
                  exact hall k' (by simp at hk; omega)
            · intro k hk
              cases k with
              | zero => simpa using hcmp
              | succ k' =>
                  simp only [List.getD_cons_succ]
                  exact hfirst k' (by omega)
          · rw [if_neg hcmp] at h2
            simp only [Option.some.injEq] at h2
            subst h2
            push_neg at hcmp
            refine ⟨by simp, ?_, ?_⟩
            · intro k hk
              cases k with
              | zero => simp
              | succ k' =>
                  simp only [List.getD_cons_succ, List.getD_cons_zero]
                  exact le_trans (hall k' (by simp at hk; omega)) hcmp
            · intro k hk
              omega

lemma partition_eq_of_eq (st : Reservations) (i j : Nat)
    (hm : reservations.find_maximal st = some j) (heq : j = i) :
    reservations.partition st i = (st, false, none) := by
  unfold reservations.partition
  rw [hm]
  simp [heq]

lemma partition_eq_of_ne (st : Reservations) (i j : Nat)
    (hm : reservations.find_maximal st = some j) (hne : j ≠ i) :
    reservations.partition st i =
      ({ table := (st.table.set j
            (reservation.partitionInto (st.table.getD j default)
              (st.table.getD i default)).1).set i
            (reservation.partitionInto (st.table.getD j default)
              (st.table.getD i default)).2.1,
         hashes := st.hashes },
       (reservation.partitionInto (st.table.getD j default)
         (st.table.getD i default)).2.2,
       some j) := by
  unfold reservations.partition
  rw [hm]
  simp [hne]

/-- C3 (amended): `reservations::partition(s)` selects as donor the first
slot of maximal size — the lowest slot id among ties when the table's slot
ids are strictly increasing — and invokes the slot-level
`maximal->partition(s)` whenever the table is non-empty and the donor is
distinct from `s`: there is no size ≥ 2 gate at the call site.  When the
donor holds a single hash, the (spec-modelled) slot-level partition returns
false and no hashes are transferred. -/
theorem C3_partition_donor (st : Reservations) (i : Nat)
    (hsorted : st.table.Pairwise (fun a b => a.slot < b.slot)) :
    (st.table = [] → reservations.partition st i = (st, false, none)) ∧
    (∀ j, reservations.find_maximal st = some j →
      j < st.table.length ∧
      (∀ k, k < st.table.length →
        (st.table.getD k default).pending.length ≤
          (st.table.getD j default).pending.length) ∧
      (∀ k, k < st.table.length →
        (st.table.getD k default).pending.length =
          (st.table.getD j default).pending.length →
        (st.table.getD j default).slot ≤ (st.table.getD k default).slot) ∧
      (j = i → reservations.partition st i = (st, false, none)) ∧
      (j ≠ i → (reservations.partition st i).2.2 = some j) ∧
      (j ≠ i → (st.table.getD j default).pending.length = 1 →
        (reservations.partition st i).2.1 = false ∧
        (reservations.partition st i).1.table.map (fun r => r.pending) =
          st.table.map (fun r => r.pending) ∧
        (reservations.partition st i).1.hashes = st.hashes)) := by
  constructor
  · intro h
    have hnone : reservations.find_maximal st = none := by
      rw [reservations.find_maximal, h]
      rfl
    unfold reservations.partition
    rw [hnone]
  · intro j hm
    obtain ⟨hjlen, hall, hfirst⟩ := maxElemIdx_spec st.table j hm
    refine ⟨hjlen, hall, ?_, fun heq => partition_eq_of_eq st i j hm heq, ?_, ?_⟩
    · intro k hk hkeq
      rcases lt_trichotomy k j with hlt | heq | hgt
      · exact absurd hkeq (ne_of_lt (hfirst k hlt))
      · subst heq
        exact le_refl _
      · rw [List.pairwise_iff_getElem] at hsorted
        have hs := hsorted j k hjlen hk hgt
        rw [List.getD_eq_getElem _ _ hjlen, List.getD_eq_getElem _ _ hk]
        exact le_of_lt hs
    · intro hne
      rw [partition_eq_of_ne st i j hm hne]
    · intro hne h1
      rw [partition_eq_of_ne st i j hm hne]
      have hdrop : (st.table.getD j default).pending.drop
          (((st.table.getD j default).pending.length + 1) / 2) = [] := by
        apply List.drop_eq_nil_of_le
        rw [h1]
      have htake : (st.table.getD j default).pending.take
          (((st.table.getD j default).pending.length + 1) / 2) =
          (st.table.getD j default).pending := by
        apply List.take_of_length_le
        rw [h1]
      refine ⟨?_, ?_, rfl⟩
      · show (reservation.partitionInto (st.table.getD j default)
            (st.table.getD i default)).2.2 = false
        simp only [reservation.partitionInto]
        rw [hdrop]
        rfl
      · apply List.ext_getElem?
        intro n
        rw [List.getElem?_map, List.getElem?_map]
        by_cases hni : n = i
        · subst hni
          by_cases hilen : n < st.table.length
          · have hlen2 : n < (st.table.set j
                (reservation.partitionInto (st.table.getD j default)
                  (st.table.getD n default)).1).length := by
              rw [List.length_set]
              exact hilen
            rw [List.getElem?_set_self hlen2]
            rw [List.getElem?_eq_getElem hilen]
            unfold reservation.partitionInto
            simp only [hdrop, List.append_nil, Option.map_some]
            rw [List.getD_eq_getElem _ _ hilen]
          · have hge : st.table.length ≤ n := by omega
            rw [List.getElem?_eq_none (by simp only [List.length_set]; omega),
              List.getElem?_eq_none hge]
        · rw [List.getElem?_set_ne (fun hc => hni hc.symm)]
          by_cases hnj : n = j
          · subst hnj
            rw [List.getElem?_set_self hjlen, List.getElem?_eq_getElem hjlen]
            unfold reservation.partitionInto
            simp only [htake]
            rw [List.getD_eq_getElem _ _ hjlen]
            rfl
          · rw [List.getElem?_set_ne (fun hc => hnj hc.symm)]

/-- C3 witness: on the two-slot table whose donor holds a single hash, the
call returns false and transfers nothing. -/
theorem C3_witness :
    (reservations.partition singletonState 1).2.1 = false ∧
    (reservations.partition singletonState 1).1.table.map (fun r => r.pending) =
      singletonState.table.map (fun r => r.pending) ∧
    (reservations.partition singletonState 1).1.hashes = singletonState.hashes :=
  ((C3_partition_donor singletonState 1 (by decide)).2 0 (by decide)).2.2.2.2.2
    (by decide) (by decide)

/-- C3 counterexample: with a maximal slot holding one hash (size < 2) and a
distinct recipient, the code still invokes the slot-level partition call —
the claimed "only when the maximal slot has size at least 2" gate does not
exist at the call site. -/
theorem C3_counterexample :
    (reservations.partition singletonState 1).2.2 = some 0 ∧
    (singletonState.table.getD 0 default).pending.length < 2 := by
  decide

-- C2: reservations::populate / reserve.
--------------------------------------------------------------------------------

lemma sub_size_t_eq (a b : Nat) (hb : b ≤ a) (ha : a ≤ max_size_t) :
    sub_size_t a b = a - b := by
  unfold sub_size_t
  have h1 : a + (max_size_t + 1) - b = (a - b) + (max_size_t + 1) := by omega
  rw [h1, Nat.add_mod_right]
  exact Nat.mod_eq_of_lt (by omega)

lemma reserveLoop_spec (n : Nat) :
    ∀ (st : Reservations) (i : Nat),
      i < st.table.length → n ≤ st.hashes.length →
      (reserveLoop st i n).hashes = st.hashes.drop n ∧
      (reserveLoop st i n).table.length = st.table.length ∧
      (∀ j, j ≠ i → (reserveLoop st i n).table[j]? = st.table[j]?) ∧
      (reserveLoop st i n).table[i]? =
        (st.table[i]?).map
          (fun r => { r with pending := r.pending ++ st.hashes.take n }) := by
  induction n with
  | zero =>
      intro st i _ _
      refine ⟨by simp [reserveLoop], rfl, fun j _ => rfl, ?_⟩
      show st.table[i]? = _
      rw [List.take_zero]
      cases st.table[i]? with
      | none => rfl
      | some v => simp
  | succ n ih =>
      intro st i hi hq
      obtain ⟨e, rest, he⟩ : ∃ e rest, st.hashes = e :: rest := by
        cases hh : st.hashes with
        | nil => rw [hh] at hq; simp at hq
        | cons e rest => exact ⟨e, rest, rfl⟩
      set st₁ : Reservations :=
        { table := st.table.set i (insertEntry (st.table.getD i default) e),
          hashes := rest } with hst₁
      have hstep : reserveLoop st i (n + 1) = reserveLoop st₁ i n := by
        rw [reserveLoop, dequeueInto_cons st i e rest he]
      have hi₁ : i < st₁.table.length := by
        simp only [hst₁, List.length_set]
        exact hi
      have hq₁ : n ≤ st₁.hashes.length := by
        have : st.hashes.length = rest.length + 1 := by rw [he]; simp
        simp only [hst₁]
        omega
      obtain ⟨iha, ihb, ihc, ihd⟩ := ih st₁ i hi₁ hq₁
      refine ⟨?_, ?_, ?_, ?_⟩
      · rw [hstep, iha, hst₁, he]
        simp [List.drop_succ_cons]
      · rw [hstep, ihb, hst₁]
        simp [List.length_set]
      · intro j hj
        rw [hstep, ihc j hj]
        simp only [hst₁]
        rw [List.getElem?_set_ne (fun hc => hj hc.symm)]
      · rw [hstep, ihd]
        have hset : st₁.table[i]? =
            some (insertEntry (st.table.getD i default) e) := by
          simp only [hst₁]
          exact List.getElem?_set_self hi
        rw [hset, List.getD_eq_getElem _ _ hi, List.getElem?_eq_getElem hi]
        show some _ = some _
        congr 1
        simp only [hst₁, he, insertEntry, List.take_succ_cons]
        simp

/-- C2: for a slot whose size is at most max_request, `reserve` dequeues
exactly `min(|queue|, max_request − size)` entries from the head of the
queue into the slot in queue order (other slots untouched); `populate`
attempts `partition` exactly when the slot is still empty after `reserve`
(equivalently, when `reserve` returned false); and `populate` returns true
iff the slot ends with at least one pending hash. -/
theorem C2_populate_reserve (st : Reservations) (i : Nat)
    (hi : i < st.table.length)
    (hsize : (st.table.getD i default).pending.length ≤ max_request) :
    (∀ A, A = min st.hashes.length
        (max_request - (st.table.getD i default).pending.length) →
      (reservations.reserve st i).1.hashes = st.hashes.drop A ∧
      (reservations.reserve st i).1.table[i]? =
        some { st.table.getD i default with
               pending := (st.table.getD i default).pending ++
                 st.hashes.take A } ∧
      (∀ j, j ≠ i → (reservations.reserve st i).1.table[j]? = st.table[j]?)) ∧
    ((reservations.reserve st i).2 = false ↔
      ((reservations.reserve st i).1.table.getD i default).pending = []) ∧
    ((reservations.populate st i).2.2 = true ↔
      (reservations.reserve st i).2 = false) ∧
    ((reservations.populate st i).2.1 = true ↔
      ((reservations.populate st i).1.table.getD i default).pending ≠ []) := by
  have hsub : sub_size_t max_request
      (st.table.getD i default).pending.length =
      max_request - (st.table.getD i default).pending.length := by
    apply sub_size_t_eq _ _ hsize
    norm_num [max_request, max_size_t]
  have hA : min st.hashes.length
      (max_request - (st.table.getD i default).pending.length) ≤
      st.hashes.length := Nat.min_le_left _ _
  obtain ⟨la, lb, lc, ld⟩ := reserveLoop_spec
    (min st.hashes.length
      (max_request - (st.table.getD i default).pending.length)) st i hi hA
  have hres : reservations.reserve st i =
      (reserveLoop st i
        (min st.hashes.length
          (max_request - (st.table.getD i default).pending.length)),
       !((reserveLoop st i
          (min st.hashes.length
            (max_request - (st.table.getD i default).pending.length))).table.getD
              i default).pending.isEmpty) := by
    unfold reservations.reserve
    simp only [hsub]
  have hiff : (reservations.reserve st i).2 = false ↔
      ((reservations.reserve st i).1.table.getD i default).pending = [] := by
    rw [hres]
    simp [List.isEmpty_iff]
  refine ⟨?_, hiff, ?_, ?_⟩
  · intro A hA'
    subst hA'
    rw [hres]
    refine ⟨la, ?_, lc⟩
    rw [ld, List.getElem?_eq_getElem hi, List.getD_eq_getElem _ _ hi]
    rfl
  · cases hr : (reservations.reserve st i).2 <;>
      simp [reservations.populate, hr]
  · cases hr : (reservations.reserve st i).2 with
    | true =>
        have hne : ((reservations.reserve st i).1.table.getD i default).pending ≠
            [] := by
          intro hc
          rw [hiff.mpr hc] at hr
          exact Bool.false_ne_true hr
        have hpop : reservations.populate st i =
            ((reservations.reserve st i).1, true, false) := by
          unfold reservations.populate
          simp [hr]
        rw [hpop]
        exact ⟨fun _ => hne, fun _ => rfl⟩
    | false =>
        have hempty : ((reservations.reserve st i).1.table.getD i default).pending =
            [] := hiff.mp hr
        have hpop : reservations.populate st i =
            ((reservations.partition (reservations.reserve st i).1 i).1,
             (reservations.partition (reservations.reserve st i).1 i).2.1,
             true) := by
          unfold reservations.populate
          simp [hr]
        rw [hpop]
        have hlen : (reservations.reserve st i).1.table.length = st.table.length := by
          rw [hres]
          exact lb
        cases hmax : reservations.find_maximal (reservations.reserve st i).1 with
        | none =>
            have hpart : reservations.partition (reservations.reserve st i).1 i =
                ((reservations.reserve st i).1, false, none) := by
              unfold reservations.partition
              rw [hmax]
            rw [hpart]
            exact ⟨fun h => absurd h Bool.false_ne_true, fun h => absurd hempty h⟩
        | some j =>
            by_cases hji : j = i
            · rw [partition_eq_of_eq _ _ _ hmax hji]
              exact ⟨fun h => absurd h Bool.false_ne_true, fun h => absurd hempty h⟩
            · rw [partition_eq_of_ne _ _ _ hmax hji]
              have hilt : i < ((reservations.reserve st i).1.table.set j
                  (reservation.partitionInto
                    ((reservations.reserve st i).1.table.getD j default)
                    ((reservations.reserve st i).1.table.getD i default)).1).length := by
                rw [List.length_set, hlen]
                exact hi
              have hgd : ((((reservations.reserve st i).1.table.set j
                  (reservation.partitionInto
                    ((reservations.reserve st i).1.table.getD j default)
                    ((reservations.reserve st i).1.table.getD i default)).1).set i
                  (reservation.partitionInto
                    ((reservations.reserve st i).1.table.getD j default)
                    ((reservations.reserve st i).1.table.getD i default)).2.1).getD
                    i default) =
                  (reservation.partitionInto
                    ((reservations.reserve st i).1.table.getD j default)
                    ((reservations.reserve st i).1.table.getD i default)).2.1 := by
                rw [List.getD_eq_getElem?_getD, List.getElem?_set_self hilt]
                rfl
              dsimp only
              rw [hgd]
              have hempty2 : ((reservations.reserve st i).1.table[i]?.getD
                  default).pending = [] := by
                rw [← List.getD_eq_getElem?_getD]
                exact hempty
              simp [reservation.partitionInto, hempty, hempty2, List.isEmpty_iff]

/-- C2 witness: the theorem applied to a one-slot table with an empty slot
and a two-entry queue. -/
theorem C2_witness :
    (reservations.reserve
      { table := [⟨0, [], false⟩],
        hashes := [(5, 1), (6, 2)] } 0).1.hashes =
      ([(5, 1), (6, 2)] : List HashEntry).drop 2 ∧
    ((reservations.populate
      { table := [⟨0, [], false⟩],
        hashes := [(5, 1), (6, 2)] } 0).2.1 = true ↔
      ((reservations.populate
        { table := [⟨0, [], false⟩],
          hashes := [(5, 1), (6, 2)] } 0).1.table.getD 0
            default).pending ≠ []) := by
  have h := C2_populate_reserve
    { table := [⟨0, [], false⟩], hashes := [(5, 1), (6, 2)] } 0
    (by decide) (by decide)
  exact ⟨(h.1 2 (by decide)).1, h.2.2.2⟩

-- C8: reservations::rates statistics.
--------------------------------------------------------------------------------

/-- C8: `reservations::rates()` computes over exactly the non-idle rows:
active_rows is the number of rows whose idle() is false and is at most the
table size; the mean is the guarded division of the sum of their normal()
values by active_rows (the exact quotient when active_rows > 0); and when
active_rows = 0 the guarded divisions give mean 0 and standard deviation
(the square root of the returned quotient) 0. -/
theorem C8_rates_snapshot (rows : List RateRow) :
    (reservations.rates rows).1 = (rows.filter (fun r => !r.idle)).length ∧
    (reservations.rates rows).1 ≤ rows.length ∧
    (reservations.rates rows).2.1 =
      divide ((rows.filter (fun r => !r.idle)).map (fun r => r.normal)).sum
        (reservations.rates rows).1 ∧
    (0 < (reservations.rates rows).1 →
      (reservations.rates rows).2.1 =
        ((rows.filter (fun r => !r.idle)).map (fun r => r.normal)).sum /
          ((reservations.rates rows).1 : ℚ)) ∧
    ((reservations.rates rows).1 = 0 →
      (reservations.rates rows).2.1 = 0 ∧
      Real.sqrt ((reservations.rates rows).2.2 : ℝ) = 0) := by
  refine ⟨rfl, ?_, rfl, ?_, ?_⟩
  · show (rows.filter (fun r => !r.idle)).length ≤ rows.length
    exact List.length_filter_le _ _
  · intro hpos
    have hpos' : 0 < (rows.filter (fun r => !r.idle)).length := hpos
    show divide _ _ = _
    unfold divide
    rw [if_neg (by omega)]
    rfl
  · intro hzero
    have hzero' : (rows.filter (fun r => !r.idle)).length = 0 := hzero
    constructor
    · show divide _ _ = 0
      unfold divide
      rw [if_pos hzero']
    · have hq : (reservations.rates rows).2.2 = 0 := by
        show divide _ _ = 0
        unfold divide
        rw [if_pos hzero']
      rw [hq]
      simp [Real.sqrt_zero]

/-- C8 witness: on the empty table, active_rows = 0 and the standard
deviation is zero. -/
theorem C8_witness :
    (reservations.rates ([] : List RateRow)).2.1 = 0 ∧
    Real.sqrt ((reservations.rates ([] : List RateRow)).2.2 : ℝ) = 0 :=
  (C8_rates_snapshot []).2.2.2.2 rfl

-- C4-C7, C9: protocol_block_in.
--------------------------------------------------------------------------------

/-- C4: `send_get_blocks` sends nothing while the protocol is stopped, while
the candidate header chain is stale, or when the reservation's request
inventory is empty; and whatever it sends with require_witness set has had
its inventory types rewritten to their witness variants. -/
theorem C4_send_gate (stopped stale require_witness : Bool)
    (request : List InvVector) (msg : List InvVector)
    (h : send_get_blocks stopped stale require_witness request = some msg) :
    stopped = false ∧ stale = false ∧ request ≠ [] ∧
      (require_witness = true → msg = request.map InvVector.to_witness) := by
  unfold send_get_blocks at h
  cases stopped with
  | true => simp at h
  | false =>
      cases stale with
      | true => simp at h
      | false =>
          simp only [Bool.false_eq_true, if_false] at h
          by_cases hreq : request.isEmpty
          · rw [if_pos hreq] at h
            exact absurd h (by simp)
          · rw [if_neg hreq] at h
            cases require_witness with
            | true =>
                rw [if_pos rfl] at h
                exact ⟨rfl, rfl, fun hc => hreq (by simp [hc]),
                  fun _ => (Option.some.inj h).symm⟩
            | false =>
                exact ⟨rfl, rfl, fun hc => hreq (by simp [hc]),
                  fun hrw => absurd hrw (by simp)⟩

/-- C4 witness: a send with require_witness set carries the
witness-rewritten inventory. -/
theorem C4_witness :
    false = false ∧ false = false ∧ ([⟨2, 99⟩] : List InvVector) ≠ [] ∧
      (true = true →
        ([⟨2, 99⟩] : List InvVector).map InvVector.to_witness =
          ([⟨2, 99⟩] : List InvVector).map InvVector.to_witness) :=
  C4_send_gate false false true [⟨2, 99⟩]
    (([⟨2, 99⟩] : List InvVector).map InvVector.to_witness) (by decide)

/-- C5: on a received block (no transport error, protocol running), the
channel is stopped with channel_stopped and organize is not invoked when
required witness is unavailable, else when the reservation is stopped, else
when `find_height_and_erase` misses — in that order. -/
theorem C5_receive_stop_order (inp : ReceiveInput)
    (hstop : inp.protocol_stopped = false) (hec : inp.ec = Code.success) :
    (inp.require_witness = true ∧ inp.peer_witness = false →
      handle_receive_block inp =
        ⟨some Code.channel_stopped, false, false, false, false, false⟩) ∧
    (¬(inp.require_witness = true ∧ inp.peer_witness = false) →
      inp.reservation_stopped = true →
      handle_receive_block inp =
        ⟨some Code.channel_stopped, false, false, false, false, false⟩) ∧
    (¬(inp.require_witness = true ∧ inp.peer_witness = false) →
      inp.reservation_stopped = false → inp.find_result = none →
      handle_receive_block inp =
        ⟨some Code.channel_stopped, false, false, false, false, false⟩) := by
  obtain ⟨ps, ec, rw, pw, rs, fr, og, bs⟩ := inp
  simp only at hstop hec
  subst hstop hec
  refine ⟨?_, ?_, ?_⟩
  · rintro ⟨hrw, hpw⟩
    simp only at hrw hpw
    subst hrw hpw
    simp [handle_receive_block]
  · intro hnw hrs
    simp only at hrs
    subst hrs
    have hw : (rw && !pw) = false := by
      cases rw <;> cases pw <;> simp_all
    simp [handle_receive_block, hw]
  · intro hnw hrs hfr
    simp only at hrs hfr
    subst hrs hfr
    have hw : (rw && !pw) = false := by
      cases rw <;> cases pw <;> simp_all
    simp [handle_receive_block, hw]

/-- C5 witness: a witness-requiring protocol facing a non-witness peer stops
the channel with channel_stopped and never calls organize. -/
theorem C5_witness :
    handle_receive_block
        ⟨false, Code.success, true, false, false, some 5, Code.success, false⟩ =
      ⟨some Code.channel_stopped, false, false, false, false, false⟩ :=
  (C5_receive_stop_order
    ⟨false, Code.success, true, false, false, some 5, Code.success, false⟩
    rfl rfl).1 ⟨rfl, rfl⟩

/-- C6: when a block passes find_height_and_erase, organize is invoked; a
non-zero organize code stops the channel with exactly that code and skips
update_history and send_get_blocks; a zero code leads to both being
invoked. -/
theorem C6_organize_error (inp : ReceiveInput) (h : Nat)
    (hstop : inp.protocol_stopped = false) (hec : inp.ec = Code.success)
    (hw : ¬(inp.require_witness = true ∧ inp.peer_witness = false))
    (hrs : inp.reservation_stopped = false)
    (hfr : inp.find_result = some h) :
    (handle_receive_block inp).organize_called = true ∧
    (∀ e, inp.organize_result = e → e ≠ Code.success →
      (handle_receive_block inp).stop_code = some e ∧
      (handle_receive_block inp).update_history_called = false ∧
      (handle_receive_block inp).send_called = false) ∧
    (inp.organize_result = Code.success →
      (handle_receive_block inp).update_history_called = true ∧
      (handle_receive_block inp).send_called = true ∧
      (handle_receive_block inp).stop_code = none) := by
  obtain ⟨ps, ec, rw, pw, rs, fr, og, bs⟩ := inp
  simp only at hstop hec hrs hfr hw
  subst hstop hec hrs hfr
  have hwb : (rw && !pw) = false := by
    cases rw <;> cases pw <;> simp_all
  refine ⟨?_, ?_, ?_⟩
  · by_cases hog : og = Code.success <;>
      simp [handle_receive_block, hwb, hog]
  · intro e hoe hene
    subst hoe
    simp [handle_receive_block, hwb, hene]
  · intro hog
    simp only at hog
    subst hog
    simp [handle_receive_block, hwb]

/-- C6 witness: a failing organize code stops the channel with that code and
skips update_history and send_get_blocks. -/
theorem C6_witness :
    (handle_receive_block
      ⟨false, Code.success, false, false, false, some 7, Code.other 3,
        false⟩).stop_code = some (Code.other 3) ∧
    (handle_receive_block
      ⟨false, Code.success, false, false, false, some 7, Code.other 3,
        false⟩).update_history_called = false ∧
    (handle_receive_block
      ⟨false, Code.success, false, false, false, some 7, Code.other 3,
        false⟩).send_called = false :=
  (C6_organize_error
    ⟨false, Code.success, false, false, false, some 7, Code.other 3, false⟩ 7
    rfl rfl (by simp) rfl rfl).2.1 (Code.other 3) rfl (by decide)

/-- C7: on a timer event of a non-stopped protocol, a non-zero code other
than channel_timeout stops the channel with that code; with no error or
channel_timeout the channel is stopped exactly when the reservation has
expired (so channel_timeout alone does not stop the channel). -/
theorem C7_timer_policy (inp : EventInput)
    (hstop : inp.protocol_stopped = false) :
    (inp.ec ≠ Code.success → inp.ec ≠ Code.channel_timeout →
      (handle_event inp).stop_code = some inp.ec) ∧
    ((inp.ec = Code.success ∨ inp.ec = Code.channel_timeout) →
      ((handle_event inp).stop_code ≠ none ↔ inp.expired = true)) := by
  obtain ⟨ps, ec, ex⟩ := inp
  simp only at hstop
  subst hstop
  constructor
  · intro h1 h2
    simp only at h1 h2
    simp [handle_event, h1, h2]
  · intro hor
    rcases hor with hsucc | htime
    · simp only at hsucc
      subst hsucc
      cases ex <;> simp [handle_event]
    · simp only at htime
      subst htime
      cases ex <;> simp [handle_event]

/-- C7 witness: a non-timeout error code stops the channel with that code. -/
theorem C7_witness :
    (handle_event ⟨false, Code.other 9, false⟩).stop_code =
      some (Code.other 9) :=
  (C7_timer_policy ⟨false, Code.other 9, false⟩ rfl).1 (by decide) (by decide)

/-- C9: after a successful organize, the progress report is emitted exactly
when height divides the period N, with N = 100 while the block chain is
stale and N = 1 otherwise. -/
theorem C9_report_period (inp : ReceiveInput) (h : Nat)
    (hstop : inp.protocol_stopped = false) (hec : inp.ec = Code.success)
    (hw : ¬(inp.require_witness = true ∧ inp.peer_witness = false))
    (hrs : inp.reservation_stopped = false)
    (hfr : inp.find_result = some h)
    (hok : inp.organize_result = Code.success) :
    (handle_receive_block inp).report_called = true ↔
      h % (if inp.blocks_stale = true then 100 else 1) = 0 := by
  obtain ⟨ps, ec, rw, pw, rs, fr, og, bs⟩ := inp
  simp only at hstop hec hrs hfr hok hw
  subst hstop hec hrs hfr hok
  have hwb : (rw && !pw) = false := by
    cases rw <;> cases pw <;> simp_all
  cases bs <;> simp [handle_receive_block, hwb]

/-- C9 witness: while stale, height 200 is a multiple of 100 and is
reported. -/
theorem C9_witness :
    (handle_receive_block
      ⟨false, Code.success, false, false, false, some 200, Code.success,
        true⟩).report_called = true ↔
      200 % (if true = true then 100 else 1) = 0 :=
  C9_report_period
    ⟨false, Code.success, false, false, false, some 200, Code.success, true⟩
    200 rfl rfl (by simp) rfl rfl rfl

end BitcoinNode
